import Mathlib

/-!
# Verification of the collab-board room/connection manager

A shallow embedding of `src/server/main.py` (the `RoomManager` class and the
`websocket_endpoint` dispatch loop) together with proofs about it.

Modelling conventions:
* A WebSocket connection handle is an opaque identifier (`Handle := Nat`);
  Python's `is`-identity on handle objects becomes equality of identifiers.
* Python dicts (`rooms`, `history`, `_locks`) become association lists that
  preserve insertion order, exactly as CPython dicts do; `_locks` only matters
  through which keys are present, so it is a list of keys.
* Parsed JSON values are the mutual inductive `Json`/`JsonList`/`JsonFields`
  (`JsonList` and `JsonFields` are plain embedded lists, spelled out mutually
  so that decidable equality can be derived).
* `deque(maxlen=MAX_HISTORY_PER_ROOM)` becomes a `List` whose `append`
  (`dequeAppend`) drops the oldest entries beyond the cap.
* The `async` operations are modelled as atomic state transformers: every
  critical section of the source runs under a lock, and the claims quantify
  over sequences of whole operations.
* Send failures/timeouts during a broadcast are modelled by an oracle
  `fails : Handle → Bool` saying which recipients' sends raise or time out.
* Environment-driven configuration values (`MAX_HISTORY_PER_ROOM`,
  `MAX_ROOMS`, `ECHO_SENDER_EVENTS`) are the fields of `Config`;
  `defaultConfig` holds the source's defaults.
-/

/-- Environment-driven configuration values from the top of `main.py`. -/
structure Config where
  maxHistoryPerRoom : Nat
  maxRooms : Nat
  echoSenderEvents : Bool
deriving DecidableEq

/-- The defaults: `MAX_HISTORY_PER_ROOM=500`, `MAX_ROOMS=1000`,
`ECHO_SENDER_EVENTS=true`. -/
def defaultConfig : Config := ⟨500, 1000, true⟩

/-- Room identifiers are opaque strings (the `room_id` path segment). -/
abbrev RoomId := String

/-- A WebSocket connection handle, identified by an opaque id. -/
abbrev Handle := Nat

mutual
/-- Parsed JSON values, the result of `json.loads` on an inbound text frame. -/
inductive Json where
  | null
  | bool (b : Bool)
  | num (n : Int)
  | str (s : String)
  | arr (elems : JsonList)
  | obj (fields : JsonFields)

/-- A JSON array's elements (a plain list, written mutually). -/
inductive JsonList where
  | nil
  | cons (head : Json) (tail : JsonList)

/-- A JSON object's fields (a plain association list, written mutually). -/
inductive JsonFields where
  | nil
  | cons (key : String) (value : Json) (tail : JsonFields)
end

deriving instance DecidableEq for Json
deriving instance DecidableEq for JsonList
deriving instance DecidableEq for JsonFields

/-- Convert an ordinary list of JSON values into a `JsonList`. -/
def JsonList.ofList : List Json → JsonList
  | [] => JsonList.nil
  | x :: xs => JsonList.cons x (JsonList.ofList xs)

/-- `fields.get key`: the value of the first field named `key`, Python's
`message.get(key)` on a dict. -/
def JsonFields.get : JsonFields → String → Option Json
  | JsonFields.nil, _ => none
  | JsonFields.cons k v rest, key => if k = key then some v else rest.get key

/-- Lookup in an insertion-ordered association list (Python `d[k]` / `k in d`). -/
def alistFind {α : Type} (l : List (String × α)) (k : String) : Option α :=
  match l with
  | [] => none
  | (k', v) :: rest => if k' = k then some v else alistFind rest k

/-- Assignment `d[k] = v` on an insertion-ordered dict: replace in place when
the key is present, append at the end otherwise. -/
def alistInsert {α : Type} (l : List (String × α)) (k : String) (v : α) :
    List (String × α) :=
  match l with
  | [] => [(k, v)]
  | (k', v') :: rest =>
    if k' = k then (k', v) :: rest else (k', v') :: alistInsert rest k v

/-- `d.pop(k, None)`: remove the binding of `k` when present. -/
def alistErase {α : Type} (l : List (String × α)) (k : String) :
    List (String × α) :=
  match l with
  | [] => []
  | (k', v') :: rest => if k' = k then rest else (k', v') :: alistErase rest k

/-- Make sure a key is present in the lock table (`self._locks[room_id] = Lock()`
or the lazy creation in `_get_room_lock`): only presence of the key matters. -/
def lockInsert (locks : List RoomId) (rid : RoomId) : List RoomId :=
  if rid ∈ locks then locks else locks ++ [rid]

/-- `deque(maxlen=cap).append x`: append and evict the oldest entries so that
at most `cap` remain. -/
def dequeAppend (cap : Nat) (q : List Json) (x : Json) : List Json :=
  if (q ++ [x]).length > cap then (q ++ [x]).drop ((q ++ [x]).length - cap)
  else q ++ [x]

/-- The mutable state of the `RoomManager` class: `self.rooms`,
`self.history` and (the key set of) `self._locks`. -/
structure RoomManager where
  rooms : List (RoomId × List Handle)
  history : List (RoomId × List Json)
  locks : List RoomId
deriving DecidableEq

/-- The freshly constructed manager (`RoomManager.__init__`). -/
def initManager : RoomManager := ⟨[], [], []⟩

/-- `RoomManager._get_room_lock`: lazily create the per-room lock. The lock
object itself carries no state here, so the effect is inserting the key. -/
def get_room_lock (m : RoomManager) (rid : RoomId) : RoomManager :=
  { m with locks := lockInsert m.locks rid }

/-- `RoomManager.ensure_room`: under the manager lock, create the room's
structures unless present; raise `RuntimeError` at the cap. -/
def ensure_room (cfg : Config) (m : RoomManager) (rid : RoomId) :
    Except String RoomManager :=
  if (alistFind m.rooms rid).isSome then Except.ok m
  else if cfg.maxRooms ≤ m.rooms.length then
    Except.error "Max rooms limit reached"
  else Except.ok
    { rooms := alistInsert m.rooms rid []
      history := alistInsert m.history rid []
      locks := lockInsert m.locks rid }

/-- The outcome of `RoomManager.connect`: the new state and the history
envelope sent to the joining connection (if any). -/
structure ConnectResult where
  manager : RoomManager
  sent : Option Json
deriving DecidableEq

/-- `RoomManager.connect`: accept, lazily initialize the room, append the
handle to the members, then send the history snapshot — the source only
sends when `history_payload` is non-empty (`if history_payload:`). -/
def connect (cfg : Config) (m : RoomManager) (websocket : Handle)
    (rid : RoomId) : ConnectResult :=
  let m1 := get_room_lock m rid
  let rooms1 :=
    if (alistFind m1.rooms rid).isSome then m1.rooms
    else alistInsert m1.rooms rid []
  let history1 :=
    if (alistFind m1.history rid).isSome then m1.history
    else alistInsert m1.history rid []
  let rooms2 := alistInsert rooms1 rid
    (((alistFind rooms1 rid).getD []) ++ [websocket])
  let history_payload := (alistFind history1 rid).getD []
  let sent :=
    if history_payload = [] then none
    else some (Json.obj (JsonFields.cons "type" (Json.str "history")
      (JsonFields.cons "payload" (Json.arr (JsonList.ofList history_payload))
        JsonFields.nil)))
  ⟨⟨rooms2, history1, m1.locks⟩, sent⟩

/-- `RoomManager.disconnect`: remove the handle from the room's members when
present; when the member list becomes empty, pop the room from all three
tables. Note the unconditional `_get_room_lock` at entry. -/
def disconnect (m : RoomManager) (websocket : Handle) (rid : RoomId) :
    RoomManager :=
  let m1 := get_room_lock m rid
  match alistFind m1.rooms rid with
  | none => m1
  | some members =>
    if websocket ∈ members then
      let members2 := members.erase websocket
      if members2 = [] then
        ⟨alistErase m1.rooms rid, alistErase m1.history rid,
          m1.locks.erase rid⟩
      else { m1 with rooms := alistInsert m1.rooms rid members2 }
    else m1

/-- The outcome of `RoomManager.broadcast`: the new state, the snapshot of
recipients each of which gets one concurrent send, and the recipients whose
send raised or timed out. -/
structure BroadcastResult where
  manager : RoomManager
  recipients : List Handle
  dead : List Handle
deriving DecidableEq

/-- The snapshot phase of `RoomManager.broadcast`, taken under the room lock:
the members of the room, minus the sender when `include_sender` is false
(`if ws is not sender`). -/
def broadcastRecipients (m1 : RoomManager) (rid : RoomId)
    (sender : Option Handle) (include_sender : Bool) : List Handle :=
  let members := (alistFind m1.rooms rid).getD []
  if include_sender then members
  else members.filter (fun ws => decide (some ws ≠ sender))

/-- The prune phase of `RoomManager.broadcast`, re-entered under the room
lock when `dead_clients` is non-empty: remove each dead handle still present,
then delete the room's entry from all three tables if it became empty. -/
def broadcastPrune (m1 : RoomManager) (rid : RoomId) (dead : List Handle) :
    RoomManager :=
  let members2 := dead.foldl (fun ms ws => ms.erase ws)
    ((alistFind m1.rooms rid).getD [])
  let rooms2 :=
    if (alistFind m1.rooms rid).isSome then alistInsert m1.rooms rid members2
    else m1.rooms
  if alistFind rooms2 rid = some [] then
    ⟨alistErase rooms2 rid, alistErase m1.history rid, m1.locks.erase rid⟩
  else ⟨rooms2, m1.history, m1.locks⟩

/-- `RoomManager.broadcast`: snapshot the member list under the room lock
(filtering out the sender when `include_sender` is false), send to every
recipient concurrently with a timeout (`fails` says whose send raises or
times out), then prune the dead recipients. -/
def broadcast (m : RoomManager) (message : Json) (rid : RoomId)
    (sender : Option Handle) (include_sender : Bool)
    (fails : Handle → Bool) : BroadcastResult :=
  let m1 := get_room_lock m rid
  let recipients := broadcastRecipients m1 rid sender include_sender
  if recipients = [] then ⟨m1, [], []⟩
  else
    let dead := recipients.filter fails
    if dead = [] then ⟨m1, recipients, []⟩
    else ⟨broadcastPrune m1 rid dead, recipients, dead⟩

/-- `message.get("type")` followed by the `isinstance(msg_type, str)` check:
`some t` exactly when the object has a string `type` field. -/
def objType (fields : JsonFields) : Option String :=
  match fields.get "type" with
  | some (Json.str s) => some s
  | _ => none

/-- Whether the receive loop keeps running after handling one frame. -/
inductive LoopStatus where
  | continues
  | errorExit
deriving DecidableEq

/-- The outcome of handling one inbound frame in the Active state: the new
manager state, the `(recipient, message)` send attempts issued by the
broadcasts, and whether the loop continues. -/
structure Dispatch where
  manager : RoomManager
  sends : List (Handle × Json)
  status : LoopStatus
deriving DecidableEq

/-- The `else` branch of the dispatch (`# Normal drawing or other events`):
append the message to the room's history when the room has one, then
broadcast with `sender=websocket, include_sender=ECHO_SENDER_EVENTS`. -/
def forwardDispatch (cfg : Config) (m : RoomManager) (websocket : Handle)
    (rid : RoomId) (message : Json) (fails : Handle → Bool) : Dispatch :=
  let m1 := get_room_lock m rid
  let m2 := { m1 with history :=
    (match alistFind m1.history rid with
     | some q =>
       alistInsert m1.history rid (dequeAppend cfg.maxHistoryPerRoom q message)
     | none => m1.history) }
  let b := broadcast m2 message rid (some websocket) cfg.echoSenderEvents fails
  ⟨b.manager, b.recipients.map (fun ws => (ws, message)), LoopStatus.continues⟩

/-- One iteration of the Active-state receive loop after the size check,
starting from the result of `json.loads` (`none` = `JSONDecodeError`).
A parsed value that is not an object makes `message.get("type")` raise
`AttributeError`, which escapes to the outer handler and ends the loop. -/
def handleFrame (cfg : Config) (m : RoomManager) (websocket : Handle)
    (rid : RoomId) (parsed : Option Json) (fails : Handle → Bool) : Dispatch :=
  match parsed with
  | none => ⟨m, [], LoopStatus.continues⟩
  | some message =>
    match message with
    | Json.obj fields =>
      match objType fields with
      | none => ⟨m, [], LoopStatus.continues⟩
      | some msg_type =>
        if msg_type = "clear" then
          let m1 := get_room_lock m rid
          let m2 := { m1 with history :=
            (if (alistFind m1.history rid).isSome then alistInsert m1.history rid []
             else m1.history) }
          let b := broadcast m2 message rid none true fails
          ⟨b.manager, b.recipients.map (fun ws => (ws, message)),
            LoopStatus.continues⟩
        else if msg_type = "undo" ∨ msg_type = "redo" then
          let b := broadcast m message rid none true fails
          ⟨b.manager, b.recipients.map (fun ws => (ws, message)),
            LoopStatus.continues⟩
        else forwardDispatch cfg m websocket rid message fails
    | _ => ⟨m, [], LoopStatus.errorExit⟩

/-- A send-failure oracle under which every send succeeds. -/
def noFails : Handle → Bool := fun _ => false

/-- One `RoomManager`-level operation, for reasoning about whole runs:
`ensure` (a failed `ensure_room` leaves the state unchanged — the endpoint
closes the connection), `conn`, `disc`, and `frame` (one Active-state
inbound frame handled by the endpoint's dispatch). -/
inductive Op where
  | ensure (rid : RoomId)
  | conn (websocket : Handle) (rid : RoomId)
  | disc (websocket : Handle) (rid : RoomId)
  | frame (websocket : Handle) (rid : RoomId) (parsed : Option Json)
      (fails : Handle → Bool)

/-- Apply one operation to the manager state. -/
def stepOp (cfg : Config) (m : RoomManager) : Op → RoomManager
  | Op.ensure rid =>
    match ensure_room cfg m rid with
    | Except.ok m' => m'
    | Except.error _ => m
  | Op.conn ws rid => (connect cfg m ws rid).manager
  | Op.disc ws rid => disconnect m ws rid
  | Op.frame ws rid parsed fails => (handleFrame cfg m ws rid parsed fails).manager

/-- Run a sequence of operations from the fresh manager. -/
def runOps (cfg : Config) (ops : List Op) : RoomManager :=
  ops.foldl (stepOp cfg) initManager

/-! ## Association-list lemmas -/

/-- The keys of one of the manager's tables are pairwise distinct, as they are
for a Python dict. Every state the server reaches satisfies this. -/
def KeysNodup {α : Type} (l : List (String × α)) : Prop :=
  (l.map Prod.fst).Nodup

instance {α : Type} (l : List (String × α)) : Decidable (KeysNodup l) :=
  inferInstanceAs (Decidable (l.map Prod.fst).Nodup)

theorem alistFind_eq_none_of_not_mem_keys {α : Type} {l : List (String × α)}
    {k : String} (h : k ∉ l.map Prod.fst) : alistFind l k = none := by
  induction l with
  | nil => rfl
  | cons p rest ih =>
    obtain ⟨k', v⟩ := p
    simp only [List.map_cons, List.mem_cons, not_or] at h
    simp only [alistFind, if_neg (Ne.symm h.1)]
    exact ih h.2

theorem alistFind_alistErase_self {α : Type} {l : List (String × α)}
    {k : String} (h : KeysNodup l) : alistFind (alistErase l k) k = none := by
  induction l with
  | nil => rfl
  | cons p rest ih =>
    obtain ⟨k', v⟩ := p
    simp only [KeysNodup, List.map_cons, List.nodup_cons] at h
    by_cases hk : k' = k
    · subst hk
      simp only [alistErase, if_pos rfl]
      exact alistFind_eq_none_of_not_mem_keys h.1
    · simp only [alistErase, if_neg hk, alistFind, if_neg hk]
      exact ih h.2

theorem alistFind_alistInsert_self {α : Type} (l : List (String × α))
    (k : String) (v : α) : alistFind (alistInsert l k v) k = some v := by
  induction l with
  | nil => simp [alistInsert, alistFind]
  | cons p rest ih =>
    obtain ⟨k', v'⟩ := p
    by_cases hk : k' = k
    · simp [alistInsert, hk, alistFind]
    · simp [alistInsert, hk, alistFind, ih]

theorem mem_alistInsert {α : Type} {l : List (String × α)} {k : String}
    {v : α} {p : String × α} (h : p ∈ alistInsert l k v) : p ∈ l ∨ p.2 = v := by
  induction l with
  | nil =>
    simp only [alistInsert, List.mem_singleton] at h
    right
    rw [h]
  | cons q rest ih =>
    obtain ⟨k', v'⟩ := q
    by_cases hk : k' = k
    · simp only [alistInsert, if_pos hk, List.mem_cons] at h
      rcases h with h | h
      · right; rw [h]
      · left; exact List.mem_cons_of_mem _ h
    · simp only [alistInsert, if_neg hk, List.mem_cons] at h
      rcases h with h | h
      · left; exact h ▸ List.mem_cons_self _ _
      · rcases ih h with h' | h'
        · left; exact List.mem_cons_of_mem _ h'
        · right; exact h'

theorem mem_alistErase {α : Type} {l : List (String × α)} {k : String}
    {p : String × α} (h : p ∈ alistErase l k) : p ∈ l := by
  induction l with
  | nil => simpa [alistErase] using h
  | cons q rest ih =>
    obtain ⟨k', v'⟩ := q
    by_cases hk : k' = k
    · simp only [alistErase, if_pos hk] at h
      exact List.mem_cons_of_mem _ h
    · simp only [alistErase, if_neg hk, List.mem_cons] at h
      rcases h with h | h
      · exact h ▸ List.mem_cons_self _ _
      · exact List.mem_cons_of_mem _ (ih h)

theorem alistFind_mem {α : Type} {l : List (String × α)} {k : String} {v : α}
    (h : alistFind l k = some v) : (k, v) ∈ l := by
  induction l with
  | nil => simp [alistFind] at h
  | cons q rest ih =>
    obtain ⟨k', v'⟩ := q
    simp only [alistFind] at h
    split at h
    · next heq =>
      injection h with h
      subst h
      subst heq
      exact List.mem_cons_self _ _
    · exact List.mem_cons_of_mem _ (ih h)

theorem mem_keys_alistInsert {α : Type} {l : List (String × α)}
    {k a : String} {v : α} (h : a ∈ (alistInsert l k v).map Prod.fst) :
    a ∈ l.map Prod.fst ∨ a = k := by
  induction l with
  | nil =>
    simp only [alistInsert, List.map_cons, List.map_nil, List.mem_singleton] at h
    right
    exact h
  | cons q rest ih =>
    obtain ⟨k', v'⟩ := q
    by_cases hk : k' = k
    · simp only [alistInsert, if_pos hk, List.map_cons, List.mem_cons] at h ⊢
      tauto
    · simp only [alistInsert, if_neg hk, List.map_cons, List.mem_cons] at h ⊢
      rcases h with h | h
      · tauto
      · rcases ih h with h' | h' <;> tauto

theorem keysNodup_alistInsert {α : Type} {l : List (String × α)} {k : String}
    {v : α} (h : KeysNodup l) : KeysNodup (alistInsert l k v) := by
  induction l with
  | nil => simp [KeysNodup, alistInsert]
  | cons q rest ih =>
    obtain ⟨k', v'⟩ := q
    simp only [KeysNodup, List.map_cons, List.nodup_cons] at h
    by_cases hk : k' = k
    · simp only [KeysNodup, alistInsert, if_pos hk, List.map_cons,
        List.nodup_cons]
      exact h
    · simp only [KeysNodup, alistInsert, if_neg hk, List.map_cons,
        List.nodup_cons]
      refine ⟨fun hmem => ?_, ih h.2⟩
      rcases mem_keys_alistInsert hmem with h' | h'
      · exact h.1 h'
      · exact hk h'

theorem alistInsert_length_le {α : Type} (l : List (String × α)) (k : String)
    (v : α) : (alistInsert l k v).length ≤ l.length + 1 := by
  induction l with
  | nil => simp [alistInsert]
  | cons q rest ih =>
    obtain ⟨k', v'⟩ := q
    by_cases hk : k' = k
    · simp [alistInsert, hk]
    · simp only [alistInsert, if_neg hk, List.length_cons]
      omega

/-! ## Bounded-deque lemmas -/

theorem dequeAppend_length_le (cap : Nat) (q : List Json) (x : Json) :
    (dequeAppend cap q x).length ≤ cap := by
  unfold dequeAppend
  split
  · simp only [List.length_drop]
    omega
  · next h =>
    simp only [List.length_append, List.length_cons, List.length_nil,
      gt_iff_lt, not_lt] at h ⊢
    omega

theorem dequeAppend_eq_drop (cap : Nat) (q : List Json) (x : Json) :
    dequeAppend cap q x = (q ++ [x]).drop (q.length + 1 - cap) := by
  unfold dequeAppend
  split
  · simp [List.length_append]
  · next h =>
    simp only [List.length_append, List.length_cons, List.length_nil,
      gt_iff_lt, not_lt] at h
    have h0 : q.length + 1 - cap = 0 := by omega
    simp [h0]

theorem foldl_dequeAppend_eq (cap : Nat) (msgs : List Json) :
    ∀ q : List Json, q.length ≤ cap →
      List.foldl (dequeAppend cap) q msgs
        = (q ++ msgs).drop (q.length + msgs.length - cap) := by
  induction msgs with
  | nil =>
    intro q hq
    simp only [List.foldl_nil, List.append_nil, List.length_nil, Nat.add_zero]
    have h0 : q.length - cap = 0 := by omega
    simp [h0]
  | cons x xs ih =>
    intro q hq
    rw [List.foldl_cons, ih (dequeAppend cap q x) (dequeAppend_length_le cap q x),
      dequeAppend_eq_drop]
    have hk : q.length + 1 - cap ≤ (q ++ [x]).length := by
      simp only [List.length_append, List.length_cons, List.length_nil]
      omega
    rw [← List.drop_append_of_le_length hk, List.drop_drop]
    have hlists : (q ++ [x]) ++ xs = q ++ x :: xs := by simp
    rw [hlists]
    congr 1
    simp only [List.length_drop, List.length_append, List.length_cons,
      List.length_nil]
    omega

/-! ## Erase-fold counting lemmas (for broadcast pruning) -/

theorem count_foldl_erase (ds : List Handle) :
    ∀ (ms : List Handle) (w : Handle),
      (ds.foldl (fun acc d => acc.erase d) ms).count w
        = ms.count w - ds.count w := by
  induction ds with
  | nil => intro ms w; simp
  | cons d ds ih =>
    intro ms w
    rw [List.foldl_cons, ih]
    by_cases hdw : d = w
    · subst hdw
      rw [List.count_erase_self]
      simp only [List.count_cons_self]
      omega
    · rw [List.count_erase_of_ne (Ne.symm hdw),
        List.count_cons_of_ne (Ne.symm hdw)]

theorem not_mem_foldl_erase {ds ms : List Handle} {w : Handle}
    (hcount : ms.count w ≤ ds.count w) :
    w ∉ ds.foldl (fun acc d => acc.erase d) ms := by
  intro hmem
  have hc := count_foldl_erase ds ms w
  have hpos : 0 < (ds.foldl (fun acc d => acc.erase d) ms).count w :=
    List.count_pos_iff.mpr hmem
  omega

theorem foldl_erase_self (l : List Handle) :
    l.foldl (fun acc d => acc.erase d) l = [] := by
  rw [List.eq_nil_iff_forall_not_mem]
  intro a ha
  have hc := count_foldl_erase l l a
  have hpos : 0 < (l.foldl (fun acc d => acc.erase d) l).count a :=
    List.count_pos_iff.mpr ha
  omega

/-! ## Broadcast lemmas -/

theorem broadcastRecipients_include (m1 : RoomManager) (rid : RoomId)
    (sender : Option Handle) :
    broadcastRecipients m1 rid sender true = (alistFind m1.rooms rid).getD [] := rfl

theorem broadcastRecipients_subset {m1 : RoomManager} {rid : RoomId}
    {sender : Option Handle} {inc : Bool} {w : Handle}
    (h : w ∈ broadcastRecipients m1 rid sender inc) :
    w ∈ (alistFind m1.rooms rid).getD [] := by
  simp only [broadcastRecipients] at h
  split at h
  · exact h
  · exact (List.mem_filter.mp h).1

theorem count_broadcastRecipients {m1 : RoomManager} {rid : RoomId}
    {sender : Option Handle} {inc : Bool} {w : Handle}
    (h : w ∈ broadcastRecipients m1 rid sender inc) :
    (broadcastRecipients m1 rid sender inc).count w
      = ((alistFind m1.rooms rid).getD []).count w := by
  simp only [broadcastRecipients] at h ⊢
  split at h
  · rename_i hinc
    rw [if_pos hinc]
  · rename_i hinc
    rw [if_neg hinc]
    exact List.count_filter (List.mem_filter.mp h).2

theorem broadcastPrune_history (m1 : RoomManager) (rid : RoomId)
    (dead : List Handle) :
    (broadcastPrune m1 rid dead).history = m1.history ∨
    (broadcastPrune m1 rid dead).history = alistErase m1.history rid := by
  simp only [broadcastPrune, apply_ite RoomManager.history]
  split <;> split
  all_goals first | (right; rfl) | (left; rfl)

theorem broadcastPrune_not_mem {m1 : RoomManager} {rid : RoomId}
    {dead : List Handle} {w : Handle} (hnodup : KeysNodup m1.rooms)
    (hcount : ((alistFind m1.rooms rid).getD []).count w ≤ dead.count w) :
    ∀ q, alistFind (broadcastPrune m1 rid dead).rooms rid = some q → w ∉ q := by
  intro q hq
  have hmem2 : w ∉ dead.foldl (fun ms ws => ms.erase ws)
      ((alistFind m1.rooms rid).getD []) := not_mem_foldl_erase hcount
  simp only [broadcastPrune, apply_ite RoomManager.rooms] at hq
  by_cases hsome : (alistFind m1.rooms rid).isSome
  · rw [if_pos hsome, alistFind_alistInsert_self] at hq
    by_cases hm2 : (dead.foldl (fun ms ws => ms.erase ws)
        ((alistFind m1.rooms rid).getD [])) = []
    · rw [if_pos (by rw [hm2])] at hq
      rw [alistFind_alistErase_self (keysNodup_alistInsert hnodup)] at hq
      exact absurd hq (by simp)
    · rw [if_neg (fun h => hm2 (Option.some.inj h)),
        alistFind_alistInsert_self] at hq
      injection hq with hq
      exact hq ▸ hmem2
  · have hnone : alistFind m1.rooms rid = none :=
      Option.not_isSome_iff_eq_none.mp hsome
    rw [if_neg hsome] at hq
    rw [if_neg (by rw [hnone]; simp)] at hq
    rw [hnone] at hq
    exact absurd hq (by simp)

theorem broadcast_recipients_eq (m : RoomManager) (message : Json)
    (rid : RoomId) (sender : Option Handle) (inc : Bool)
    (fails : Handle → Bool) :
    (broadcast m message rid sender inc fails).recipients
      = broadcastRecipients m rid sender inc := by
  simp only [broadcast]
  split
  · rename_i h
    exact h.symm
  · split
    · rfl
    · rfl

theorem broadcast_history_cases (m : RoomManager) (message : Json)
    (rid : RoomId) (sender : Option Handle) (inc : Bool)
    (fails : Handle → Bool) :
    (broadcast m message rid sender inc fails).manager.history = m.history ∨
    (broadcast m message rid sender inc fails).manager.history
      = alistErase m.history rid := by
  simp only [broadcast]
  split
  · left; rfl
  · split
    · left; rfl
    · exact broadcastPrune_history (get_room_lock m rid) rid _

/-! ## The history-length invariant -/

/-- Every history buffer in the table has at most `maxHistoryPerRoom`
entries. -/
def HistBounded (cfg : Config) (hist : List (RoomId × List Json)) : Prop :=
  ∀ p ∈ hist, (p : RoomId × List Json).2.length ≤ cfg.maxHistoryPerRoom

theorem histBounded_init (cfg : Config) : HistBounded cfg initManager.history := by
  intro p hp
  simp [initManager] at hp

theorem histBounded_insert {cfg : Config} {h : List (RoomId × List Json)}
    {rid : RoomId} {q : List Json} (hb : HistBounded cfg h)
    (hq : q.length ≤ cfg.maxHistoryPerRoom) :
    HistBounded cfg (alistInsert h rid q) := by
  intro p hp
  rcases mem_alistInsert hp with h' | h'
  · exact hb p h'
  · rw [h']
    exact hq

theorem histBounded_erase {cfg : Config} {h : List (RoomId × List Json)}
    {k : String} (hb : HistBounded cfg h) : HistBounded cfg (alistErase h k) :=
  fun p hp => hb p (mem_alistErase hp)

theorem histBounded_broadcast {cfg : Config} {m : RoomManager} {message : Json}
    {rid : RoomId} {sender : Option Handle} {inc : Bool} {fails : Handle → Bool}
    (hb : HistBounded cfg m.history) :
    HistBounded cfg (broadcast m message rid sender inc fails).manager.history := by
  rcases broadcast_history_cases m message rid sender inc fails with h | h
  · rw [h]; exact hb
  · rw [h]; exact histBounded_erase hb

theorem histBounded_ensure {cfg : Config} {m m' : RoomManager} {rid : RoomId}
    (hb : HistBounded cfg m.history)
    (h : ensure_room cfg m rid = Except.ok m') : HistBounded cfg m'.history := by
  unfold ensure_room at h
  split at h
  · injection h with h
    subst h
    exact hb
  · split at h
    · exact absurd h (by simp)
    · injection h with h
      subst h
      exact histBounded_insert hb (by simp)

theorem connect_manager_history (cfg : Config) (m : RoomManager) (ws : Handle)
    (rid : RoomId) :
    (connect cfg m ws rid).manager.history
      = (if (alistFind m.history rid).isSome then m.history
         else alistInsert m.history rid []) := rfl

theorem disconnect_history_cases (m : RoomManager) (ws : Handle)
    (rid : RoomId) :
    (disconnect m ws rid).history = m.history ∨
    (disconnect m ws rid).history = alistErase m.history rid := by
  simp only [disconnect]
  split
  · left; rfl
  · split
    · split
      · right; rfl
      · left; rfl
    · left; rfl

theorem histBounded_forwardDispatch {cfg : Config} {m : RoomManager}
    {ws : Handle} {rid : RoomId} {message : Json} {fails : Handle → Bool}
    (hb : HistBounded cfg m.history) :
    HistBounded cfg (forwardDispatch cfg m ws rid message fails).manager.history := by
  simp only [forwardDispatch]
  refine histBounded_broadcast ?_
  simp only [get_room_lock]
  cases hfind : alistFind m.history rid with
  | none => exact hb
  | some q => exact histBounded_insert hb (dequeAppend_length_le _ _ _)

theorem histBounded_handleFrame {cfg : Config} {m : RoomManager} {ws : Handle}
    {rid : RoomId} {parsed : Option Json} {fails : Handle → Bool}
    (hb : HistBounded cfg m.history) :
    HistBounded cfg (handleFrame cfg m ws rid parsed fails).manager.history := by
  match parsed with
  | none => exact hb
  | some Json.null => exact hb
  | some (Json.bool b) => exact hb
  | some (Json.num n) => exact hb
  | some (Json.str s) => exact hb
  | some (Json.arr elems) => exact hb
  | some (Json.obj fields) =>
    simp only [handleFrame]
    cases hOT : objType fields with
    | none => exact hb
    | some t =>
      dsimp only
      by_cases hclear : t = "clear"
      · rw [if_pos hclear]
        refine histBounded_broadcast ?_
        simp only [get_room_lock]
        by_cases hsome : (alistFind m.history rid).isSome
        · rw [if_pos hsome]
          exact histBounded_insert hb (by simp)
        · rw [if_neg hsome]
          exact hb
      · rw [if_neg hclear]
        by_cases hur : t = "undo" ∨ t = "redo"
        · rw [if_pos hur]
          exact histBounded_broadcast hb
        · rw [if_neg hur]
          exact histBounded_forwardDispatch hb

theorem histBounded_stepOp {cfg : Config} {m : RoomManager} (op : Op)
    (hb : HistBounded cfg m.history) :
    HistBounded cfg (stepOp cfg m op).history := by
  cases op with
  | ensure rid =>
    simp only [stepOp]
    cases h : ensure_room cfg m rid with
    | ok m' => exact histBounded_ensure hb h
    | error e => exact hb
  | conn ws rid =>
    simp only [stepOp]
    rw [connect_manager_history]
    by_cases hsome : (alistFind m.history rid).isSome
    · rw [if_pos hsome]
      exact hb
    · rw [if_neg hsome]
      exact histBounded_insert hb (by simp)
  | disc ws rid =>
    simp only [stepOp]
    rcases disconnect_history_cases m ws rid with h | h
    · rw [h]; exact hb
    · rw [h]; exact histBounded_erase hb
  | frame ws rid parsed fails => exact histBounded_handleFrame hb

theorem histBounded_runOps (cfg : Config) (ops : List Op) :
    HistBounded cfg (runOps cfg ops).history := by
  suffices h : ∀ m0 : RoomManager, HistBounded cfg m0.history →
      HistBounded cfg (ops.foldl (stepOp cfg) m0).history from
    h initManager (histBounded_init cfg)
  induction ops with
  | nil => intro m0 h0; exact h0
  | cons op ops ih =>
    intro m0 h0
    exact ih _ (histBounded_stepOp op h0)

/-! ## Small helper lemmas -/

theorem get_room_lock_rooms (m : RoomManager) (rid : RoomId) :
    (get_room_lock m rid).rooms = m.rooms := rfl

theorem get_room_lock_history (m : RoomManager) (rid : RoomId) :
    (get_room_lock m rid).history = m.history := rfl

theorem get_room_lock_locks (m : RoomManager) (rid : RoomId) :
    (get_room_lock m rid).locks = lockInsert m.locks rid := rfl

theorem broadcastRecipients_get_room_lock (m : RoomManager)
    (rid rid2 : RoomId) (sender : Option Handle) (inc : Bool) :
    broadcastRecipients (get_room_lock m rid2) rid sender inc
      = broadcastRecipients m rid sender inc := rfl

theorem lockInsert_nodup {locks : List RoomId} {rid : RoomId}
    (h : locks.Nodup) : (lockInsert locks rid).Nodup := by
  unfold lockInsert
  split
  · exact h
  · rename_i hni
    simp [List.nodup_append, h, hni]

theorem broadcast_noFails_manager (m : RoomManager) (message : Json)
    (rid : RoomId) (sender : Option Handle) (inc : Bool) :
    (broadcast m message rid sender inc noFails).manager = get_room_lock m rid := by
  simp only [broadcast]
  split
  · rfl
  · split
    · rfl
    · rename_i h2
      exact absurd (by simp [noFails]) h2

/-! ## Claim C1 -/

/-- C1 counterexample: joining room "R1" of a fresh manager (whose history is
empty) sends no history envelope at all — in particular not the claimed
envelope with an empty payload array. The source guards the send with
`if history_payload:`. -/
theorem c1_counterexample :
    (connect defaultConfig initManager 0 "R1").sent
      ≠ some (Json.obj (JsonFields.cons "type" (Json.str "history")
          (JsonFields.cons "payload" (Json.arr JsonList.nil)
            JsonFields.nil))) := by
  decide

/-- C1 (amended): after a successful join the handle is appended to the
room's members, and a single history envelope carrying the full current
history snapshot is sent if and only if that snapshot is non-empty; when the
history is empty, no history message is sent at all. -/
theorem c1_connect_history_replay (cfg : Config) (m : RoomManager)
    (ws : Handle) (rid : RoomId) :
    alistFind (connect cfg m ws rid).manager.rooms rid
      = some (((alistFind m.rooms rid).getD []) ++ [ws]) ∧
    ((alistFind m.history rid).getD [] = [] →
      (connect cfg m ws rid).sent = none) ∧
    (∀ q, alistFind m.history rid = some q → q ≠ [] →
      (connect cfg m ws rid).sent
        = some (Json.obj (JsonFields.cons "type" (Json.str "history")
            (JsonFields.cons "payload" (Json.arr (JsonList.ofList q))
              JsonFields.nil)))) := by
  refine ⟨?_, ?_, ?_⟩
  · simp only [connect, get_room_lock_rooms, get_room_lock_history]
    by_cases hsome : (alistFind m.rooms rid).isSome
    · rw [if_pos hsome, alistFind_alistInsert_self]
    · have hnone : alistFind m.rooms rid = none :=
        Option.not_isSome_iff_eq_none.mp hsome
      rw [if_neg hsome, alistFind_alistInsert_self, alistFind_alistInsert_self,
        hnone]
      rfl
  · intro hempty
    simp only [connect, get_room_lock_rooms, get_room_lock_history]
    by_cases hsome : (alistFind m.history rid).isSome
    · rw [if_pos hsome, if_pos hempty]
    · have hnone : alistFind m.history rid = none :=
        Option.not_isSome_iff_eq_none.mp hsome
      rw [if_neg hsome, alistFind_alistInsert_self]
      rfl
  · intro q hq hne
    simp only [connect, get_room_lock_rooms, get_room_lock_history]
    have hsome : (alistFind m.history rid).isSome := by rw [hq]; rfl
    rw [if_pos hsome, hq]
    exact if_neg hne

/-- C1 witness: at a state with one recorded event, the amended theorem
yields the member append and the non-empty replay envelope. -/
theorem c1_witness :
    alistFind (connect defaultConfig ⟨[], [("R1", [Json.null])], []⟩
        5 "R1").manager.rooms "R1" = some [5] ∧
    (connect defaultConfig ⟨[], [("R1", [Json.null])], []⟩ 5 "R1").sent
      = some (Json.obj (JsonFields.cons "type" (Json.str "history")
          (JsonFields.cons "payload"
            (Json.arr (JsonList.cons Json.null JsonList.nil))
            JsonFields.nil))) :=
  ⟨(c1_connect_history_replay defaultConfig ⟨[], [("R1", [Json.null])], []⟩
      5 "R1").1,
   (c1_connect_history_replay defaultConfig ⟨[], [("R1", [Json.null])], []⟩
      5 "R1").2.2 [Json.null] (by decide) (by decide)⟩

/-! ## Claim C3 -/

/-- C3 counterexample: with the room cap configured to 1, one `ensure_room`
followed by a `connect` to a different (never-ensured) room id leaves two
entries in the room table — `connect`'s lazy `setdefault` creates a room
without any cap check, so the table invariant can be exceeded. -/
theorem c3_counterexample :
    1 < (runOps ⟨500, 1, true⟩ [Op.ensure "a", Op.conn 0 "b"]).rooms.length := by
  decide

/-- C3 (amended): `ensure_room` itself respects the cap: any successful
result stays within `MAX_ROOMS`, it is a no-op returning the same state when
the room exists, and it fails with the capacity error when a new room would
exceed the cap (the raise happens before any mutation). The original claim's
table-wide invariant fails because `connect` lazily creates missing rooms
with no cap check. -/
theorem c3_ensure_room_cap (cfg : Config) (m : RoomManager) (rid : RoomId)
    (hle : m.rooms.length ≤ cfg.maxRooms) :
    (∀ m', ensure_room cfg m rid = Except.ok m' →
      m'.rooms.length ≤ cfg.maxRooms) ∧
    ((alistFind m.rooms rid).isSome → ensure_room cfg m rid = Except.ok m) ∧
    (alistFind m.rooms rid = none → cfg.maxRooms ≤ m.rooms.length →
      ensure_room cfg m rid = Except.error "Max rooms limit reached") := by
  refine ⟨?_, ?_, ?_⟩
  · intro m' h
    unfold ensure_room at h
    split at h
    · injection h with h
      subst h
      exact hle
    · split at h
      · exact absurd h (by simp)
      · rename_i hcap
        injection h with h
        subst h
        have hlen := alistInsert_length_le m.rooms rid ([] : List Handle)
        simp only [not_le] at hcap
        simp only []
        omega
  · intro hsome
    unfold ensure_room
    rw [if_pos hsome]
  · intro hnone hcap
    unfold ensure_room
    rw [if_neg (by simp [hnone]), if_pos hcap]

/-- C3 witness: at the cap (one room, `maxRooms = 1`), ensuring the existing
room is a no-op and ensuring a new room raises the capacity error. -/
theorem c3_witness :
    ensure_room ⟨500, 1, true⟩ ⟨[("a", [0])], [("a", [])], ["a"]⟩ "a"
      = Except.ok ⟨[("a", [0])], [("a", [])], ["a"]⟩ ∧
    ensure_room ⟨500, 1, true⟩ ⟨[("a", [0])], [("a", [])], ["a"]⟩ "b"
      = Except.error "Max rooms limit reached" :=
  ⟨(c3_ensure_room_cap ⟨500, 1, true⟩ ⟨[("a", [0])], [("a", [])], ["a"]⟩ "a"
      (by decide)).2.1 (by decide),
   (c3_ensure_room_cap ⟨500, 1, true⟩ ⟨[("a", [0])], [("a", [])], ["a"]⟩ "b"
      (by decide)).2.2 (by decide) (by decide)⟩

/-! ## Claim C8 -/

/-- C8 counterexample: disconnecting a handle from a room that does not
exist is not a pure no-op — the unconditional `_get_room_lock` at the top of
`disconnect` inserts a lock entry for the room id into the lock table. -/
theorem c8_counterexample : disconnect initManager 0 "r" ≠ initManager := by
  decide

/-- C8 (amended): when the handle is not in the room's member list (or the
room does not exist), `disconnect` leaves the room table and the history
table unchanged and only possibly inserts the room id into the lock table
(the lazy `_get_room_lock`); when the room's lock already exists the whole
state is unchanged. -/
theorem c8_disconnect_noop (m : RoomManager) (h : Handle) (rid : RoomId)
    (habs : ∀ members, alistFind m.rooms rid = some members → h ∉ members) :
    disconnect m h rid = { m with locks := lockInsert m.locks rid } := by
  simp only [disconnect, get_room_lock_rooms]
  cases hfind : alistFind m.rooms rid with
  | none => rfl
  | some members => exact if_neg (habs members hfind)

/-- C8 witness: a second disconnect of an absent handle leaves the state
exactly as it was (the lock entry already exists). -/
theorem c8_witness :
    disconnect ⟨[("r", [3])], [("r", [])], ["r"]⟩ 9 "r"
      = ⟨[("r", [3])], [("r", [])], ["r"]⟩ :=
  c8_disconnect_noop ⟨[("r", [3])], [("r", [])], ["r"]⟩ 9 "r"
    (by decide)

/-! ## Claim C9 -/

/-- C9 counterexample: a frame that IS valid JSON but not an object (here an
empty array) parses, lacks a string `type` field, and yet is not dropped
with the loop continuing — `message.get("type")` raises `AttributeError`,
which escapes to the outer handler and terminates the receive loop. -/
theorem c9_counterexample :
    (handleFrame defaultConfig ⟨[("r", [0])], [("r", [])], ["r"]⟩ 0 "r"
        (some (Json.arr JsonList.nil)) noFails).status
      ≠ LoopStatus.continues := by
  decide

/-- C9 (amended): a frame that is not valid JSON, or that parses to a JSON
object without a string `type` field, is dropped without reply — state,
sends and loop status are untouched; but a valid-JSON frame that is not an
object ends the receive loop with an error (the session then falls through
to cleanup). -/
theorem c9_malformed_frames (cfg : Config) (m : RoomManager) (ws : Handle)
    (rid : RoomId) (fails : Handle → Bool) (fields : JsonFields) (j : Json)
    (hty : objType fields = none) (hnobj : ∀ fs, j ≠ Json.obj fs) :
    handleFrame cfg m ws rid none fails = ⟨m, [], LoopStatus.continues⟩ ∧
    handleFrame cfg m ws rid (some (Json.obj fields)) fails
      = ⟨m, [], LoopStatus.continues⟩ ∧
    (handleFrame cfg m ws rid (some j) fails).status = LoopStatus.errorExit := by
  refine ⟨rfl, ?_, ?_⟩
  · simp only [handleFrame, hty]
  · cases j with
    | obj fs => exact absurd rfl (hnobj fs)
    | null => rfl
    | bool b => rfl
    | num n => rfl
    | str s => rfl
    | arr es => rfl

/-- C9 witness: an object frame whose `type` field is a number is dropped
with the state unchanged, while a bare-string frame errors the loop out. -/
theorem c9_witness :
    handleFrame defaultConfig ⟨[("r", [0])], [("r", [])], ["r"]⟩ 0 "r"
        (some (Json.obj (JsonFields.cons "type" (Json.num 3) JsonFields.nil)))
        noFails
      = ⟨⟨[("r", [0])], [("r", [])], ["r"]⟩, [], LoopStatus.continues⟩ ∧
    (handleFrame defaultConfig ⟨[("r", [0])], [("r", [])], ["r"]⟩ 0 "r"
        (some (Json.str "oops")) noFails).status = LoopStatus.errorExit := by
  have h := c9_malformed_frames defaultConfig ⟨[("r", [0])], [("r", [])], ["r"]⟩
    0 "r" noFails (JsonFields.cons "type" (Json.num 3) JsonFields.nil)
    (Json.str "oops") (by decide) (fun fs h => Json.noConfusion h)
  exact ⟨h.2.1, h.2.2⟩

/-! ## Claim C2 -/

/-- A concrete forward ("draw") event used by witnesses. -/
def drawMsg (n : Int) : Json :=
  Json.obj (JsonFields.cons "type" (Json.str "draw")
    (JsonFields.cons "n" (Json.num n) JsonFields.nil))

/-- C2: over every sequence of operations (ensures, joins, frames — which
cover forward appends and clears — and disconnects), every room's history
length stays within `MAX_HISTORY_PER_ROOM`; and folding more than the cap
of forward appends over an empty buffer (the `deque.append` of the forward
branch) retains exactly the most recent `cap` messages in order. -/
theorem c2_history_bounded (cfg : Config) (ops : List Op) (rid : RoomId)
    (q msgs : List Json)
    (hfind : alistFind (runOps cfg ops).history rid = some q)
    (hlen : cfg.maxHistoryPerRoom < msgs.length) :
    q.length ≤ cfg.maxHistoryPerRoom ∧
    List.foldl (dequeAppend cfg.maxHistoryPerRoom) [] msgs
      = msgs.drop (msgs.length - cfg.maxHistoryPerRoom) := by
  constructor
  · exact histBounded_runOps cfg ops (rid, q) (alistFind_mem hfind)
  · have h := foldl_dequeAppend_eq cfg.maxHistoryPerRoom msgs [] (by simp)
    simpa using h

/-- C2 witness: with the cap set to 2, after three forward events in room
"r" the history holds exactly the last two, and the fold property holds at
that input. -/
theorem c2_witness :
    alistFind (runOps ⟨2, 10, true⟩
        [Op.ensure "r", Op.conn 0 "r",
         Op.frame 0 "r" (some (drawMsg 1)) noFails,
         Op.frame 0 "r" (some (drawMsg 2)) noFails,
         Op.frame 0 "r" (some (drawMsg 3)) noFails]).history "r"
      = some [drawMsg 2, drawMsg 3] ∧
    2 < ([drawMsg 1, drawMsg 2, drawMsg 3] : List Json).length ∧
    ([drawMsg 2, drawMsg 3] : List Json).length ≤ 2 ∧
    List.foldl (dequeAppend 2) [] [drawMsg 1, drawMsg 2, drawMsg 3]
      = [drawMsg 1, drawMsg 2, drawMsg 3].drop 1 :=
  ⟨by decide, by decide,
   c2_history_bounded ⟨2, 10, true⟩
     [Op.ensure "r", Op.conn 0 "r",
      Op.frame 0 "r" (some (drawMsg 1)) noFails,
      Op.frame 0 "r" (some (drawMsg 2)) noFails,
      Op.frame 0 "r" (some (drawMsg 3)) noFails] "r"
     [drawMsg 2, drawMsg 3] [drawMsg 1, drawMsg 2, drawMsg 3]
     (by decide) (by decide)⟩

/-! ## Claim C4 -/

/-- C4: every recipient whose send raises or times out is gone from the
room's member list when `broadcast` returns; the set of recipients sent to
does not depend on which sends fail (one failure never suppresses the sends
to the others); and a pruned recipient is not a recipient of any subsequent
broadcast in that room. -/
theorem c4_broadcast_prunes_dead (m : RoomManager) (message : Json)
    (rid : RoomId) (sender : Option Handle) (inc : Bool)
    (fails : Handle → Bool) (w : Handle) (hnodup : KeysNodup m.rooms)
    (hw : w ∈ (broadcast m message rid sender inc fails).recipients)
    (hf : fails w = true) :
    (∀ q, alistFind (broadcast m message rid sender inc fails).manager.rooms rid
        = some q → w ∉ q) ∧
    (∀ f2 : Handle → Bool, (broadcast m message rid sender inc f2).recipients
        = (broadcast m message rid sender inc fails).recipients) ∧
    (∀ message2 sender2 inc2 f2,
      w ∉ (broadcast (broadcast m message rid sender inc fails).manager
          message2 rid sender2 inc2 f2).recipients) := by
  have hw' : w ∈ broadcastRecipients m rid sender inc := by
    rw [broadcast_recipients_eq] at hw
    exact hw
  have hdw : w ∈ (broadcastRecipients m rid sender inc).filter fails :=
    List.mem_filter.mpr ⟨hw', hf⟩
  have hcount : ((alistFind m.rooms rid).getD []).count w
      ≤ ((broadcastRecipients m rid sender inc).filter fails).count w := by
    rw [List.count_filter hf, count_broadcastRecipients hw']
  have hprune : ∀ q,
      alistFind (broadcast m message rid sender inc fails).manager.rooms rid
        = some q → w ∉ q := by
    intro q hq
    simp only [broadcast, broadcastRecipients_get_room_lock] at hq
    split at hq
    · rename_i hre
      rw [hre] at hw'
      exact absurd hw' (List.not_mem_nil w)
    · split at hq
      · rename_i hde
        rw [hde] at hdw
        exact absurd hdw (List.not_mem_nil w)
      · exact @broadcastPrune_not_mem (get_room_lock m rid) rid
          ((broadcastRecipients m rid sender inc).filter fails) w hnodup hcount
          q hq
  refine ⟨hprune, ?_, ?_⟩
  · intro f2
    rw [broadcast_recipients_eq, broadcast_recipients_eq]
  · intro message2 sender2 inc2 f2 hmem
    rw [broadcast_recipients_eq] at hmem
    have hsub := broadcastRecipients_subset hmem
    cases hfind : alistFind
        (broadcast m message rid sender inc fails).manager.rooms rid with
    | none =>
      rw [hfind] at hsub
      exact absurd hsub (by simp)
    | some q =>
      rw [hfind] at hsub
      exact hprune q hfind hsub

/-- C4 witness: in a two-member room where member 1's send times out,
member 1 is pruned and receives no subsequent broadcast. -/
theorem c4_witness :
    (1 ∈ (broadcast ⟨[("r", [0, 1])], [("r", [])], ["r"]⟩ Json.null "r" none
        true (fun h => h == 1)).recipients) ∧
    (1 ∉ (broadcast (broadcast ⟨[("r", [0, 1])], [("r", [])], ["r"]⟩ Json.null
        "r" none true (fun h => h == 1)).manager Json.null "r" none true
        noFails).recipients) :=
  ⟨by decide,
   (c4_broadcast_prunes_dead ⟨[("r", [0, 1])], [("r", [])], ["r"]⟩ Json.null
      "r" none true (fun h => h == 1) 1 (by decide) (by decide)
      (by decide)).2.2 Json.null none true noFails⟩

/-! ## Claim C5 -/

/-- C5: handling a `clear` message in the Active state replaces the room's
history with an empty buffer (the entry can only be gone entirely when the
broadcast's prune pass deleted the whole room), never stores the clear
message in history, broadcasts the clear message to the full member
snapshot including the sender, and keeps the loop running. -/
theorem c5_clear_resets_history (cfg : Config) (m : RoomManager)
    (ws : Handle) (rid : RoomId) (fields : JsonFields)
    (fails : Handle → Bool)
    (htype : objType fields = some "clear")
    (hkn : KeysNodup m.history)
    (hhist : (alistFind m.history rid).isSome) :
    (alistFind (handleFrame cfg m ws rid (some (Json.obj fields))
          fails).manager.history rid = some [] ∨
      alistFind (handleFrame cfg m ws rid (some (Json.obj fields))
          fails).manager.history rid = none) ∧
    (handleFrame cfg m ws rid (some (Json.obj fields)) fails).sends
      = ((alistFind m.rooms rid).getD []).map (fun w => (w, Json.obj fields)) ∧
    (handleFrame cfg m ws rid (some (Json.obj fields)) fails).status
      = LoopStatus.continues := by
  refine ⟨?_, ?_, ?_⟩
  · simp only [handleFrame, htype, get_room_lock_rooms, get_room_lock_history,
      get_room_lock_locks]
    rw [if_pos trivial, if_pos hhist]
    rcases broadcast_history_cases
        ⟨m.rooms, alistInsert m.history rid [], lockInsert m.locks rid⟩
        (Json.obj fields) rid none true fails with h | h
    · left
      rw [h]
      exact alistFind_alistInsert_self m.history rid []
    · right
      rw [h]
      exact alistFind_alistErase_self (keysNodup_alistInsert hkn)
  · simp only [handleFrame, htype, get_room_lock_rooms, get_room_lock_history,
      get_room_lock_locks]
    rw [if_pos trivial, if_pos hhist, broadcast_recipients_eq,
      broadcastRecipients_include]
  · simp only [handleFrame, htype]
    rw [if_pos trivial]

/-- C5 witness: clearing a two-member room with one recorded event empties
the history, broadcasts the clear to both members (the sender included),
and continues the loop. -/
theorem c5_witness :
    (alistFind (handleFrame defaultConfig ⟨[("r", [0, 1])],
          [("r", [Json.null])], ["r"]⟩ 0 "r"
          (some (Json.obj (JsonFields.cons "type" (Json.str "clear")
            JsonFields.nil))) noFails).manager.history "r" = some [] ∨
      alistFind (handleFrame defaultConfig ⟨[("r", [0, 1])],
          [("r", [Json.null])], ["r"]⟩ 0 "r"
          (some (Json.obj (JsonFields.cons "type" (Json.str "clear")
            JsonFields.nil))) noFails).manager.history "r" = none) ∧
    (handleFrame defaultConfig ⟨[("r", [0, 1])], [("r", [Json.null])], ["r"]⟩
        0 "r" (some (Json.obj (JsonFields.cons "type" (Json.str "clear")
          JsonFields.nil))) noFails).sends
      = [(0, Json.obj (JsonFields.cons "type" (Json.str "clear")
            JsonFields.nil)),
         (1, Json.obj (JsonFields.cons "type" (Json.str "clear")
            JsonFields.nil))] ∧
    (handleFrame defaultConfig ⟨[("r", [0, 1])], [("r", [Json.null])], ["r"]⟩
        0 "r" (some (Json.obj (JsonFields.cons "type" (Json.str "clear")
          JsonFields.nil))) noFails).status = LoopStatus.continues :=
  c5_clear_resets_history defaultConfig
    ⟨[("r", [0, 1])], [("r", [Json.null])], ["r"]⟩ 0 "r"
    (JsonFields.cons "type" (Json.str "clear") JsonFields.nil) noFails
    (by decide) (by decide) (by decide)

/-! ## Claim C6 -/

/-- C6: a broadcast with `include_sender = false` never has the sender among
its recipients; and a forward event (any type other than clear/undo/redo)
dispatched while the echo flag is enabled is sent back to its sender,
provided the sender is a member of the room. -/
theorem c6_sender_echo (cfg : Config) (m : RoomManager) (rid : RoomId)
    (message : Json) (s ws : Handle) (fields : JsonFields) (t : String)
    (fails : Handle → Bool) :
    s ∉ (broadcast m message rid (some s) false fails).recipients ∧
    (objType fields = some t → t ≠ "clear" → t ≠ "undo" → t ≠ "redo" →
      cfg.echoSenderEvents = true → ws ∈ (alistFind m.rooms rid).getD [] →
      (ws, Json.obj fields)
        ∈ (handleFrame cfg m ws rid (some (Json.obj fields)) fails).sends) := by
  constructor
  · intro hmem
    rw [broadcast_recipients_eq] at hmem
    simp only [broadcastRecipients] at hmem
    rw [if_neg (by simp)] at hmem
    have hp := (List.mem_filter.mp hmem).2
    simp at hp
  · intro htype hclear hundo hredo hecho hmem
    simp only [handleFrame, htype]
    rw [if_neg hclear, if_neg (by rintro (h | h) <;> [exact hundo h; exact hredo h])]
    simp only [forwardDispatch, hecho]
    rw [broadcast_recipients_eq, broadcastRecipients_include]
    exact List.mem_map.mpr ⟨ws, hmem, rfl⟩

/-- C6 witness: with two members, a broadcast excluding the sender reaches
only the other member, and a forward "draw" event with the echo default is
sent back to its sender. -/
theorem c6_witness :
    (0 ∉ (broadcast ⟨[("r", [0, 1])], [("r", [])], ["r"]⟩ Json.null "r"
        (some 0) false noFails).recipients) ∧
    ((0, drawMsg 7) ∈ (handleFrame defaultConfig
        ⟨[("r", [0, 1])], [("r", [])], ["r"]⟩ 0 "r"
        (some (drawMsg 7)) noFails).sends) :=
  ⟨(c6_sender_echo defaultConfig ⟨[("r", [0, 1])], [("r", [])], ["r"]⟩ "r"
      Json.null 0 0 (JsonFields.cons "type" (Json.str "draw")
        (JsonFields.cons "n" (Json.num 7) JsonFields.nil)) "draw" noFails).1,
   (c6_sender_echo defaultConfig ⟨[("r", [0, 1])], [("r", [])], ["r"]⟩ "r"
      Json.null 0 0 (JsonFields.cons "type" (Json.str "draw")
        (JsonFields.cons "n" (Json.num 7) JsonFields.nil)) "draw" noFails).2
     (by decide) (by decide) (by decide) (by decide) (by decide) (by decide)⟩

/-! ## Claim C7 -/

/-- Joining a room that has neither a members entry nor a history entry
creates both afresh: the joiner is the sole member, the history is empty,
and no replay is sent. -/
theorem connect_fresh {cfg : Config} {m : RoomManager} {ws : Handle}
    {rid : RoomId} (hr : alistFind m.rooms rid = none)
    (hh : alistFind m.history rid = none) :
    (connect cfg m ws rid).sent = none ∧
    alistFind (connect cfg m ws rid).manager.rooms rid = some [ws] ∧
    alistFind (connect cfg m ws rid).manager.history rid = some [] := by
  refine ⟨?_, ?_, ?_⟩
  · simp [connect, get_room_lock_rooms, get_room_lock_history, hr, hh,
      alistFind_alistInsert_self]
  · simp [connect, get_room_lock_rooms, get_room_lock_history, hr, hh,
      alistFind_alistInsert_self]
  · simp [connect, get_room_lock_rooms, get_room_lock_history, hr, hh,
      alistFind_alistInsert_self]

/-- C7: when removing members empties a room — by `disconnect`, or by the
broadcast prune pass evicting every member of an arbitrarily large room
(here: a room with any non-empty member list `mem`, all of whose sends
fail) — the room's entry disappears from all three tables (members,
history, lock) in that same critical section, and a subsequent join after
either path finds a freshly created room: empty history, no replay sent,
and the joiner as the sole member. -/
theorem c7_empty_room_cleanup (cfg : Config) (m : RoomManager) (h h2 : Handle)
    (rid : RoomId) (mem : List Handle) (message : Json)
    (fails : Handle → Bool)
    (hkr : KeysNodup m.rooms) (hkh : KeysNodup m.history)
    (hlk : m.locks.Nodup)
    (hmem : alistFind m.rooms rid = some mem) (hne : mem ≠ [])
    (hfail : ∀ w ∈ mem, fails w = true) :
    (mem = [h] →
      (alistFind (disconnect m h rid).rooms rid = none ∧
        alistFind (disconnect m h rid).history rid = none ∧
        rid ∉ (disconnect m h rid).locks) ∧
      ((connect cfg (disconnect m h rid) h2 rid).sent = none ∧
        alistFind (connect cfg (disconnect m h rid) h2 rid).manager.rooms rid
          = some [h2] ∧
        alistFind (connect cfg (disconnect m h rid) h2 rid).manager.history
          rid = some [])) ∧
    (alistFind (broadcast m message rid none true fails).manager.rooms rid
        = none ∧
      alistFind (broadcast m message rid none true fails).manager.history rid
        = none ∧
      rid ∉ (broadcast m message rid none true fails).manager.locks) ∧
    ((connect cfg (broadcast m message rid none true fails).manager
        h2 rid).sent = none ∧
      alistFind (connect cfg (broadcast m message rid none true fails).manager
          h2 rid).manager.rooms rid = some [h2] ∧
      alistFind (connect cfg (broadcast m message rid none true fails).manager
          h2 rid).manager.history rid = some []) := by
  have hrec : broadcastRecipients m rid none true = mem := by
    rw [broadcastRecipients_include, hmem]
    rfl
  have hb : broadcast m message rid none true fails
      = ⟨⟨alistErase (alistInsert m.rooms rid []) rid,
          alistErase m.history rid,
          (lockInsert m.locks rid).erase rid⟩, mem, mem⟩ := by
    simp only [broadcast, broadcastRecipients_get_room_lock, hrec]
    rw [if_neg hne]
    have hdead : mem.filter fails = mem := List.filter_eq_self.mpr hfail
    rw [hdead, if_neg hne]
    have hm2 : List.foldl (fun ms ws => ms.erase ws)
        ((some mem : Option (List Handle)).getD []) mem
        = ([] : List Handle) := by
      simpa using foldl_erase_self mem
    simp only [broadcastPrune, get_room_lock_rooms, get_room_lock_history,
      get_room_lock_locks, hmem, hm2, Option.isSome_some,
      alistFind_alistInsert_self, eq_self_iff_true, if_true]
  have hbr : alistFind
      (broadcast m message rid none true fails).manager.rooms rid = none := by
    rw [hb]
    exact alistFind_alistErase_self (keysNodup_alistInsert hkr)
  have hbh : alistFind
      (broadcast m message rid none true fails).manager.history rid = none := by
    rw [hb]
    exact alistFind_alistErase_self hkh
  have hbl : rid ∉ (broadcast m message rid none true fails).manager.locks := by
    rw [hb]
    exact List.Nodup.not_mem_erase (lockInsert_nodup hlk)
  refine ⟨?_, ⟨hbr, hbh, hbl⟩, connect_fresh hbr hbh⟩
  intro hmh
  subst hmh
  have hd : disconnect m h rid
      = ⟨alistErase m.rooms rid, alistErase m.history rid,
         (lockInsert m.locks rid).erase rid⟩ := by
    simp only [disconnect, get_room_lock_rooms, get_room_lock_history,
      get_room_lock_locks, hmem]
    rw [if_pos (List.mem_singleton.mpr rfl), if_pos (by simp)]
  have hr : alistFind (disconnect m h rid).rooms rid = none := by
    rw [hd]
    exact alistFind_alistErase_self hkr
  have hh : alistFind (disconnect m h rid).history rid = none := by
    rw [hd]
    exact alistFind_alistErase_self hkh
  have hl : rid ∉ (disconnect m h rid).locks := by
    rw [hd]
    exact List.Nodup.not_mem_erase (lockInsert_nodup hlk)
  exact ⟨⟨hr, hh, hl⟩, connect_fresh hr hh⟩

/-- C7 witness: member 7 alone in room "r" is disconnected — the room
vanishes from all tables and client 8 rejoins a fresh one; and a
two-member room "s" whose members 7 and 9 both time out is emptied by the
prune pass, deleted from all tables, and client 8 rejoins it fresh. -/
theorem c7_witness :
    ((alistFind (disconnect ⟨[("r", [7])], [("r", [Json.null])], ["r"]⟩
        7 "r").rooms "r" = none ∧
      alistFind (disconnect ⟨[("r", [7])], [("r", [Json.null])], ["r"]⟩
        7 "r").history "r" = none ∧
      "r" ∉ (disconnect ⟨[("r", [7])], [("r", [Json.null])], ["r"]⟩
        7 "r").locks) ∧
     ((connect defaultConfig (disconnect ⟨[("r", [7])], [("r", [Json.null])],
        ["r"]⟩ 7 "r") 8 "r").sent = none ∧
      alistFind (connect defaultConfig (disconnect ⟨[("r", [7])],
        [("r", [Json.null])], ["r"]⟩ 7 "r") 8 "r").manager.rooms "r"
        = some [8] ∧
      alistFind (connect defaultConfig (disconnect ⟨[("r", [7])],
        [("r", [Json.null])], ["r"]⟩ 7 "r") 8 "r").manager.history "r"
        = some [])) ∧
    ((alistFind (broadcast ⟨[("s", [7, 9])], [("s", [Json.null])], ["s"]⟩
        Json.null "s" none true
        (fun w => w == 7 || w == 9)).manager.rooms "s" = none ∧
      alistFind (broadcast ⟨[("s", [7, 9])], [("s", [Json.null])], ["s"]⟩
        Json.null "s" none true
        (fun w => w == 7 || w == 9)).manager.history "s" = none ∧
      "s" ∉ (broadcast ⟨[("s", [7, 9])], [("s", [Json.null])], ["s"]⟩
        Json.null "s" none true
        (fun w => w == 7 || w == 9)).manager.locks) ∧
     ((connect defaultConfig (broadcast ⟨[("s", [7, 9])],
        [("s", [Json.null])], ["s"]⟩ Json.null "s" none true
        (fun w => w == 7 || w == 9)).manager 8 "s").sent = none ∧
      alistFind (connect defaultConfig (broadcast ⟨[("s", [7, 9])],
        [("s", [Json.null])], ["s"]⟩ Json.null "s" none true
        (fun w => w == 7 || w == 9)).manager 8 "s").manager.rooms "s"
        = some [8] ∧
      alistFind (connect defaultConfig (broadcast ⟨[("s", [7, 9])],
        [("s", [Json.null])], ["s"]⟩ Json.null "s" none true
        (fun w => w == 7 || w == 9)).manager 8 "s").manager.history "s"
        = some [])) := by
  have ha := c7_empty_room_cleanup defaultConfig
    ⟨[("r", [7])], [("r", [Json.null])], ["r"]⟩ 7 8 "r" [7] Json.null
    (fun w => w == 7) (by decide) (by decide) (by decide) (by decide)
    (by decide) (by decide)
  have hbw := c7_empty_room_cleanup defaultConfig
    ⟨[("s", [7, 9])], [("s", [Json.null])], ["s"]⟩ 7 8 "s" [7, 9] Json.null
    (fun w => w == 7 || w == 9) (by decide) (by decide) (by decide)
    (by decide) (by decide) (by decide)
  exact ⟨ha.1 rfl, hbw.2⟩

/-! ## Claim C10 -/

/-- C10: an inbound message whose `type` is the string "history" takes the
ordinary forward-event path — it is appended to the room's history (so later
joiners replay it) and broadcast with the echo flag; the envelope type is
not reserved or rejected on the inbound path, and the loop continues. -/
theorem c10_history_type_forwarded (cfg : Config) (m : RoomManager)
    (ws : Handle) (rid : RoomId) (fields : JsonFields)
    (fails : Handle → Bool) (q : List Json)
    (htype : objType fields = some "history")
    (hq : alistFind m.history rid = some q) :
    handleFrame cfg m ws rid (some (Json.obj fields)) fails
      = forwardDispatch cfg m ws rid (Json.obj fields) fails ∧
    alistFind (handleFrame cfg m ws rid (some (Json.obj fields))
        noFails).manager.history rid
      = some (dequeAppend cfg.maxHistoryPerRoom q (Json.obj fields)) ∧
    (handleFrame cfg m ws rid (some (Json.obj fields)) fails).status
      = LoopStatus.continues := by
  have heq : ∀ f : Handle → Bool,
      handleFrame cfg m ws rid (some (Json.obj fields)) f
        = forwardDispatch cfg m ws rid (Json.obj fields) f := by
    intro f
    simp only [handleFrame, htype]
    rw [if_neg (by decide), if_neg (by decide)]
  refine ⟨heq fails, ?_, ?_⟩
  · rw [heq noFails]
    simp only [forwardDispatch, get_room_lock_history, hq]
    rw [broadcast_noFails_manager, get_room_lock_history]
    exact alistFind_alistInsert_self _ _ _
  · rw [heq fails]
    rfl

/-- C10 witness: an inbound frame typed "history" in a one-member room gets
appended to the room's history after the existing event. -/
theorem c10_witness :
    alistFind (handleFrame defaultConfig
        ⟨[("r", [0])], [("r", [Json.null])], ["r"]⟩ 0 "r"
        (some (Json.obj (JsonFields.cons "type" (Json.str "history")
          JsonFields.nil))) noFails).manager.history "r"
      = some [Json.null,
          Json.obj (JsonFields.cons "type" (Json.str "history")
            JsonFields.nil)] ∧
    (handleFrame defaultConfig ⟨[("r", [0])], [("r", [Json.null])], ["r"]⟩
        0 "r" (some (Json.obj (JsonFields.cons "type" (Json.str "history")
          JsonFields.nil))) noFails).status = LoopStatus.continues := by
  have hc := c10_history_type_forwarded defaultConfig
    ⟨[("r", [0])], [("r", [Json.null])], ["r"]⟩ 0 "r"
    (JsonFields.cons "type" (Json.str "history") JsonFields.nil) noFails
    [Json.null] (by decide) (by decide)
  exact ⟨hc.2.1, hc.2.2⟩
